import Mathlib

/-!
Verification development for the GitQlient revision-cache core
(src/cache/RevisionsCache.cpp, src/cache/References.cpp).

The C++ code is shallowly embedded: heap-allocated `CommitInfo *` records
become an arena (`heap : List CommitInfo`) addressed by natural-number
handles; the position index `mCommits : QVector<CommitInfo *>` becomes
`List (Option Nat)` (a null pointer is `none`); `QHash` maps become
association lists whose iteration order is insertion order.  Calls whose
C++ counterpart dereferences a null pointer (undefined behaviour) are
embedded as `Option`-valued functions returning `none` at such a call.
-/

/-- Reference kinds, from src/cache/References.h (enum References::Type). -/
inductive RefType
  | Tag
  | LocalBranch
  | RemoteBranches
  | Applied
  | UnApplied
  | AnyRef
deriving DecidableEq, Repr

/-- Reference Set, from src/cache/References.cpp: multi-valued mapping from a
kind to reference names, insertion order preserved per kind. -/
structure References where
  refs : List (RefType × String) := []
deriving DecidableEq, Repr

/-- References::addReference, from src/cache/References.cpp. -/
def References.addReference (r : References) (t : RefType) (v : String) : References :=
  ⟨r.refs ++ [(t, v)]⟩

/-- References::getReferences, from src/cache/References.cpp: the names of one
kind, empty when the kind is absent. -/
def References.getReferences (r : References) (t : RefType) : List String :=
  (r.refs.filter (fun x => x.1 = t)).map (fun x => x.2)

/-- References::removeReference, from src/cache/References.cpp: removes all
occurrences of the value under the kind (QList::removeAll). -/
def References.removeReference (r : References) (t : RefType) (v : String) : References :=
  ⟨r.refs.filter (fun x => ¬(x.1 = t ∧ x.2 = v))⟩

/-- Lane marker vocabulary.  Modelled from the spec: the Lane Engine contract
(lanes.h is absent from src/); markers state a column's role (active
pass-through, branch start, merge point, fork point, head, empty). -/
inductive LaneKind
  | active
  | branchStart
  | mergePoint
  | forkPoint
  | headLane
  | emptyLane
deriving DecidableEq, Repr

/-- Modelled from the spec: Commit Record (class CommitInfo, absent from
src/): identifier, ordered parent list, author, timestamp, short and long
log, attached Reference Set, computed lane sequence. -/
structure CommitInfo where
  sha : String := ""
  parents : List String := []
  author : String := ""
  dateSinceEpoch : Int := 0
  shortLog : String := ""
  longLog : String := ""
  references : References := {}
  lanes : List LaneKind := []
deriving DecidableEq, Repr

/-- Modelled from the spec: CommitInfo::parent(i) returns the i-th parent
identifier, or an empty string when out of range. -/
def CommitInfo.parent (c : CommitInfo) (i : Nat) : String :=
  c.parents.getD i ""

/-- Modelled from the spec: number of parents of a Commit Record. -/
def CommitInfo.parentsCount (c : CommitInfo) : Nat :=
  c.parents.length

/-- Modelled from the spec: the distinguished all-zero identifier of the
working-directory pseudo-commit (CommitInfo::ZERO_SHA). -/
def CommitInfo.ZERO_SHA : String :=
  "0000000000000000000000000000000000000000"

/-- Modelled from the spec: the textual fields a field-substring search can
target (enum CommitInfo::Field, absent from src/). -/
inductive CommitField
  | SHA
  | AUTHOR
  | SHORT_LOG
  | LOG
deriving DecidableEq, Repr

/-- Modelled from the spec: CommitInfo::getFieldStr, the chosen textual field
of a record. -/
def getFieldStr (c : CommitInfo) (f : CommitField) : String :=
  match f with
  | CommitField.SHA => c.sha
  | CommitField.AUTHOR => c.author
  | CommitField.SHORT_LOG => c.shortLog
  | CommitField.LOG => c.longLog

/-- Modelled from the spec: File-Change Record (class RevisionFiles, absent
from src/): ordered file paths, per-file status bit-set, per-file optional
extended-status text, per-file originating parent, only-modified flag. -/
structure RevisionFiles where
  mFiles : List String := []
  fileStatus : List Nat := []
  extStatus : List String := []
  mergeParent : List Nat := []
  onlyModified : Bool := true
deriving DecidableEq, Repr

/-- Modelled from the spec: status bits, combinable as a bit-set per index. -/
def RevisionFiles.MODIFIED : Nat := 1
def RevisionFiles.DELETED : Nat := 2
def RevisionFiles.NEW : Nat := 4
def RevisionFiles.IN_INDEX : Nat := 8
def RevisionFiles.UNKNOWN : Nat := 16
def RevisionFiles.CONFLICT : Nat := 32

/-- Modelled from the spec: RevisionFiles::setStatus(flag) records the status
bit-set for the next file entry. -/
def RevisionFiles.setStatus (rf : RevisionFiles) (flag : Nat) : RevisionFiles :=
  { rf with fileStatus := rf.fileStatus ++ [flag] }

/-- Modelled from the spec: RevisionFiles::appendExtStatus records the
extended-status text for the next file entry. -/
def RevisionFiles.appendExtStatus (rf : RevisionFiles) (s : String) : RevisionFiles :=
  { rf with extStatus := rf.extStatus ++ [s] }

/-- Modelled from the spec: RevisionFiles::setOnlyModified. -/
def RevisionFiles.setOnlyModified (rf : RevisionFiles) (b : Bool) : RevisionFiles :=
  { rf with onlyModified := b }

/-- The `rf.mergeParent.append(parNum)` member update: record the
originating-parent number for the next file entry. -/
def RevisionFiles.appendMergeParent (rf : RevisionFiles) (parNum : Nat) : RevisionFiles :=
  { rf with mergeParent := rf.mergeParent ++ [parNum] }

/-- Modelled from the spec: RevisionFiles::count() is the number of file
entries. -/
def RevisionFiles.count (rf : RevisionFiles) : Nat :=
  rf.mFiles.length

/-- Per-branch distance record, from src/cache/RevisionsCache.h
(struct RevisionsCache::LocalBranchDistances). -/
structure LocalBranchDistances where
  aheadMaster : Int := 0
  behindMaster : Int := 0
  aheadOrigin : Int := 0
  behindOrigin : Int := 0
deriving DecidableEq, Repr

/-- Modelled from the spec: the Lane Engine state (class Lanes, absent from
src/).  Each lane holds its current marker and the identifier it awaits next
in the reverse-chronological walk; `activeLane` is the lane of the commit
being processed; `pendingMergeParents` are the join targets recorded by
setMerge. -/
structure Lanes where
  lanes : List (LaneKind × String) := []
  activeLane : Nat := 0
  pendingMergeParents : List String := []
deriving DecidableEq, Repr

/-- Modelled from the spec: Lanes::init re-seeds the engine at one
identifier, breaking lane continuity intentionally. -/
def Lanes.init (sha : String) : Lanes :=
  { lanes := [(LaneKind.headLane, sha)], activeLane := 0, pendingMergeParents := [] }

/-- Modelled from the spec: first lane position awaiting the identifier. -/
def Lanes.firstShaPos (L : Lanes) (sha : String) : Option Nat :=
  L.lanes.findIdx? (fun x => x.2 = sha)

/-- Modelled from the spec: Lanes::isFork — fork when more than one lane
awaits this commit (multiple children not yet fully processed); the
discontinuity flag is set when the active lane is not the lane awaiting the
commit and must be reassigned before the commit is drawn. -/
def Lanes.isFork (L : Lanes) (sha : String) : Bool × Bool :=
  ((L.lanes.filter (fun x => x.2 = sha)).length > 1,
   decide (L.firstShaPos sha ≠ some L.activeLane))

/-- Modelled from the spec: Lanes::changeActiveLane reassigns the active lane
to the lane awaiting the commit, starting a fresh head lane when no lane
awaits it. -/
def Lanes.changeActiveLane (L : Lanes) (sha : String) : Lanes :=
  match L.firstShaPos sha with
  | some p => { L with activeLane := p }
  | none => { L with lanes := L.lanes ++ [(LaneKind.headLane, sha)], activeLane := L.lanes.length }

/-- Modelled from the spec: set the marker of one lane. -/
def Lanes.setMarkAt (L : Lanes) (i : Nat) (k : LaneKind) : Lanes :=
  { L with lanes := L.lanes.set i (k, (L.lanes.getD i (LaneKind.emptyLane, "")).2) }

/-- Modelled from the spec: Lanes::setFork marks every lane awaiting the
commit as a fork point. -/
def Lanes.setFork (L : Lanes) (sha : String) : Lanes :=
  { L with lanes := L.lanes.map (fun x => if x.2 = sha then (LaneKind.forkPoint, x.2) else x) }

/-- Modelled from the spec: Lanes::setMerge marks the active lane as a merge
point and records all parent identifiers as join targets. -/
def Lanes.setMerge (L : Lanes) (parents : List String) : Lanes :=
  { L.setMarkAt L.activeLane LaneKind.mergePoint with pendingMergeParents := parents }

/-- Modelled from the spec: Lanes::setInitial marks the active lane for a
root commit (zero parents). -/
def Lanes.setInitial (L : Lanes) : Lanes :=
  L.setMarkAt L.activeLane LaneKind.branchStart

/-- Modelled from the spec: Lanes::getLanes — the snapshot of lane markers. -/
def Lanes.getLanes (L : Lanes) : List LaneKind :=
  L.lanes.map (fun x => x.1)

/-- Modelled from the spec: Lanes::nextParent moves the active lane on to the
next parent identifier. -/
def Lanes.nextParent (L : Lanes) (sha : String) : Lanes :=
  { L with lanes := L.lanes.set L.activeLane (LaneKind.active, sha) }

/-- Modelled from the spec: Lanes::afterMerge opens a lane for every extra
parent recorded by setMerge. -/
def Lanes.afterMerge (L : Lanes) : Lanes :=
  { L with
    lanes := L.lanes ++ (L.pendingMergeParents.drop 1).map (fun p => (LaneKind.active, p)),
    pendingMergeParents := [] }

/-- Modelled from the spec: Lanes::afterFork closes the extra lanes that
joined at the fork. -/
def Lanes.afterFork (L : Lanes) : Lanes :=
  { L with
    lanes := L.lanes.filter (fun x => ¬ x.1 = LaneKind.forkPoint),
    activeLane := L.activeLane -
      ((L.lanes.take L.activeLane).filter (fun x => x.1 = LaneKind.forkPoint)).length }

/-- Modelled from the spec: Lanes::isBranch — the active lane was just
started as a fresh branch head. -/
def Lanes.isBranch (L : Lanes) : Bool :=
  (L.lanes.getD L.activeLane (LaneKind.emptyLane, "")).1 = LaneKind.headLane

/-- Modelled from the spec: Lanes::afterBranch turns the fresh head lane into
an active pass-through lane. -/
def Lanes.afterBranch (L : Lanes) : Lanes :=
  L.setMarkAt L.activeLane LaneKind.active

/-- RevisionsCache::resetLanes, from src/cache/RevisionsCache.cpp lines
607-619: advance the engine state after one commit's snapshot was taken. -/
def resetLanes (L : Lanes) (c : CommitInfo) (isFork : Bool) : Lanes :=
  let nextSha := if c.parentsCount = 0 then "" else c.parent 0
  let L1 := L.nextParent nextSha
  let L2 := if c.parentsCount > 1 then L1.afterMerge else L1
  let L3 := if isFork then L2.afterFork else L2
  if L3.isBranch then L3.afterBranch else L3

/-- The conditional marker application of RevisionsCache::calculateLanes
(src/cache/RevisionsCache.cpp lines 348-360): changeActiveLane on a
discontinuity, setFork on a fork, setMerge on a merge, setInitial on a
root. -/
def applyMarks (L : Lanes) (c : CommitInfo) (fk dc : Bool) : Lanes :=
  let L1 := if dc then L.changeActiveLane c.sha else L
  let L2 := if fk then L1.setFork c.sha else L1
  let L3 := if c.parentsCount > 1 then L2.setMerge c.parents else L2
  if c.parentsCount = 0 then L3.setInitial else L3

/-- RevisionsCache::calculateLanes, from src/cache/RevisionsCache.cpp lines
342-367: compute one commit's lane snapshot and the successor engine state. -/
def calculateLanes (L : Lanes) (c : CommitInfo) : List LaneKind × Lanes :=
  let fd := L.isFork c.sha
  let L4 := applyMarks L c fd.1 fd.2
  (L4.getLanes, resetLanes L4 c fd.1)

/-- Case-sensitive substring containment (QString::contains). -/
def containsSub (hay pat : String) : Bool :=
  (List.range (hay.toList.length + 1)).any (fun i => pat.toList.isPrefixOf (hay.toList.drop i))

/-- QString::startsWith: does `s` start with `pre`. -/
def strStartsWith (s pre : String) : Bool :=
  pre.toList.isPrefixOf s.toList

/-- Decimal digit test. -/
def isDigitChar (ch : Char) : Bool :=
  decide ('0' ≤ ch ∧ ch ≤ '9')

/-- Value of a digit string. -/
def digitsVal (l : List Char) : Nat :=
  l.foldl (fun acc ch => acc * 10 + (ch.toNat - '0'.toNat)) 0

/-- QString::toInt: the represented integer, or 0 when the string is not a
well-formed decimal number. -/
def qToInt (s : String) : Int :=
  match s.toList with
  | [] => 0
  | '-' :: rest =>
    if rest.isEmpty then 0 else if rest.all isDigitChar then -(digitsVal rest : Int) else 0
  | '+' :: rest =>
    if rest.isEmpty then 0 else if rest.all isDigitChar then (digitsVal rest : Int) else 0
  | l => if l.all isDigitChar then (digitsVal l : Int) else 0

/-- Split a character list at a separator (keeping empty parts). -/
def splitCharAux (sep : Char) : List Char → List (List Char)
  | [] => [[]]
  | c :: rest =>
    if c = sep then [] :: splitCharAux sep rest
    else
      match splitCharAux sep rest with
      | [] => [[c]]
      | h :: t => (c :: h) :: t

/-- QString::split with SkipEmptyParts on one separator character. -/
def splitSkipEmpty (s : String) (sep : Char) : List String :=
  ((splitCharAux sep s.toList).map (fun cs => String.mk cs)).filter (fun part => ¬ part = "")

/-- Decimal digit character of a value below ten. -/
def digitChar (n : Nat) : Char :=
  Char.ofNat (48 + n)

/-- Decimal digits of a natural number (fuel-driven). -/
def natStrAux : Nat → Nat → List Char
  | 0, _ => []
  | fuel + 1, n => if n < 10 then [digitChar n] else natStrAux fuel (n / 10) ++ [digitChar (n % 10)]

/-- Decimal rendering of a natural number. -/
def natStr (n : Nat) : String :=
  String.mk (natStrAux (n + 1) n)

/-- QString::number on an integer: decimal rendering. -/
def intDecStr (i : Int) : String :=
  if i < 0 then "-" ++ natStr i.natAbs else natStr i.toNat

/-- Association-list lookup (QHash/QMap::value as an Option). -/
def alLookup {α β : Type} [DecidableEq α] : List (α × β) → α → Option β
  | [], _ => none
  | x :: rest, k => if x.1 = k then some x.2 else alLookup rest k

/-- Association-list insert (QHash/QMap::insert: replace the existing entry
for the key, else append). -/
def alInsert {α β : Type} [DecidableEq α] : List (α × β) → α → β → List (α × β)
  | [], k, v => [(k, v)]
  | x :: rest, k, v => if x.1 = k then (k, v) :: rest else x :: alInsert rest k v

/-- Association-list removal (QHash::remove). -/
def alRemove {α β : Type} [DecidableEq α] (m : List (α × β)) (k : α) : List (α × β) :=
  m.filter (fun x => ¬ x.1 = k)

/-- Association-list key list (QHash::keys), in iteration order. -/
def alKeys {α β : Type} (m : List (α × β)) : List α :=
  m.map (fun x => x.1)

/-- Parsing state threaded through the Diff-Summary Parser: the cache-owned
directory/file name pools (mDirNames, mFileNames of RevisionsCache) plus the
per-record staging loader (struct RevisionsCache::FileNamesLoader, with
`flAttached` standing for `fl.rf == &rf` versus `fl.rf == nullptr`) and the
File-Change Record under construction. -/
structure ParseSt where
  mDirNames : List String := []
  mFileNames : List String := []
  flAttached : Bool := false
  flDirs : List Nat := []
  flNames : List Nat := []
  flFiles : List String := []
  rf : RevisionFiles := {}
deriving DecidableEq, Repr

/-- Index of the character just after the last slash of a path (0 when the
path has no slash), matching `name.lastIndexOf('/') + 1`. -/
def lastSlashIdx (cs : List Char) : Nat :=
  match cs.reverse.findIdx? (fun ch => ch = '/') with
  | some j => cs.length - j
  | none => 0

/-- RevisionsCache::appendFileName, from src/cache/RevisionsCache.cpp lines
421-448: split the path into directory and leaf name, intern both into the
shared pools, and stage the pool indices in the loader. -/
def appendFileName (st : ParseSt) (name : String) : ParseSt :=
  let idx := lastSlashIdx name.toList
  let dr := String.mk (name.toList.take idx)
  let nm := String.mk (name.toList.drop idx)
  let st1 :=
    match st.mDirNames.findIdx? (fun d => d = dr) with
    | some i => { st with flDirs := st.flDirs ++ [i] }
    | none =>
      { st with mDirNames := st.mDirNames ++ [dr], flDirs := st.flDirs ++ [st.mDirNames.length] }
  let st2 :=
    match st1.mFileNames.findIdx? (fun f => f = nm) with
    | some i => { st1 with flNames := st1.flNames ++ [i] }
    | none =>
      { st1 with
        mFileNames := st1.mFileNames ++ [nm], flNames := st1.flNames ++ [st1.mFileNames.length] }
  { st2 with flFiles := st2.flFiles ++ [name] }

/-- RevisionsCache::flushFileNames, from src/cache/RevisionsCache.cpp lines
450-467: move the staged pool indices into the record's file list,
reconstituting each path and skipping paths the record already holds. -/
def flushFileNames (st : ParseSt) : ParseSt :=
  if ¬ st.flAttached then st
  else
    let files :=
      (st.flDirs.zip st.flNames).foldl
        (fun acc dn =>
          let nm := st.mDirNames.getD dn.1 "" ++ st.mFileNames.getD dn.2 ""
          if nm ∈ acc then acc else acc ++ [nm])
        st.rf.mFiles
    { st with
      rf := { st.rf with mFiles := files },
      flNames := [], flDirs := [], flAttached := false }

/-- The `if (fl.rf != &rf) { flushFileNames(fl); fl.rf = &rf; }` idiom used
before staging into the current record. -/
def attachLoader (st : ParseSt) : ParseSt :=
  if st.flAttached then st else { flushFileNames st with flAttached := true }

/-- RevisionsCache::setExtStatus, from src/cache/RevisionsCache.cpp lines
551-598: the extended-status (rename/copy) path of the Diff-Summary Parser.
Splits the three-field tab-separated status, builds the
"orig --> dest (NN%)" text, stages a NEW entry at the destination, and — only
when the first character of the already-stripped type string is 'R' — a
DELETED entry at the origin. -/
def setExtStatus (st : ParseSt) (rowSt : String) (parNum : Nat) : ParseSt :=
  let sl := splitSkipEmpty rowSt '\t'
  if ¬ sl.length = 3 then st
  else
    let type := String.mk ((sl.getD 0 "").toList.drop 1)
    let orig := sl.getD 1 ""
    let dest := sl.getD 2 ""
    let extStatusInfo := orig ++ " --> " ++ dest ++ " (" ++ intDecStr (qToInt type) ++ "%)"
    let st1 := attachLoader st
    let st2 := appendFileName st1 dest
    let st3 :=
      { st2 with
        rf :=
          ((st2.rf.setStatus RevisionFiles.NEW).appendExtStatus extStatusInfo).appendMergeParent parNum }
    let st4 :=
      if (type.toList.getD 0 ' ') = 'R' then
        let st4a := attachLoader st3
        let st4b := appendFileName st4a orig
        { st4b with
          rf :=
            ((st4b.rf.setStatus RevisionFiles.DELETED).appendExtStatus
              extStatusInfo).appendMergeParent parNum }
      else st3
    { st4 with rf := st4.rf.setOnlyModified false }

/-- Parse one extended-status line into a File-Change Record on fresh pools,
flushing the staged names at the end. -/
def parseExtStatusLine (rowSt : String) : RevisionFiles :=
  (flushFileNames (setExtStatus {} rowSt 1)).rf

/-- The arena read `*ptr`: the record a handle points at (out-of-range
handles, which a reachable C++ cache never stores, read as the default
record). -/
def heapGet (heap : List CommitInfo) (h : Nat) : CommitInfo :=
  heap.getD h {}

/-- The Revision Cache, from src/cache/RevisionsCache.h: the owned record
arena plus the position index, identifier index, file-change index, reference
side-list, branch distances, lane engine state and untracked-file list. -/
structure RevisionsCache where
  mCacheLocked : Bool := false
  heap : List CommitInfo := []
  mCommits : List (Option Nat) := []
  mCommitsMap : List (String × Nat) := []
  mRevisionFilesMap : List ((String × String) × RevisionFiles) := []
  mReferences : List Nat := []
  mLocalBranchDistances : List (String × LocalBranchDistances) := []
  mLanes : Lanes := {}
  mUntrackedfiles : List String := []
deriving DecidableEq, Repr

/-- RevisionsCache::beginCacheConfig, from src/cache/RevisionsCache.cpp lines
22-39: on an unlocked cache, pre-size the position index to
numElementsToStore + 1 null slots when it is empty, then set the lock. -/
def beginCacheConfig (st : RevisionsCache) (numElementsToStore : Nat) : RevisionsCache :=
  if ¬ st.mCacheLocked then
    let st1 :=
      if st.mCommits.isEmpty then
        { st with mCommits := List.replicate (numElementsToStore + 1) none }
      else st
    { st1 with mCacheLocked := true }
  else st

/-- RevisionsCache::endCacheConfig, from src/cache/RevisionsCache.cpp lines
41-46. -/
def endCacheConfig (st : RevisionsCache) : RevisionsCache :=
  { st with mCacheLocked := false }

/-- RevisionsCache::count, from src/cache/RevisionsCache.cpp lines 633-636. -/
def cacheCount (st : RevisionsCache) : Nat :=
  st.mCommits.length

/-- RevisionsCache::getCommitInfoByRow, from src/cache/RevisionsCache.cpp
lines 96-107: default when locked, out of range or the slot is null. -/
def getCommitInfoByRow (st : RevisionsCache) (row : Int) : CommitInfo :=
  if st.mCacheLocked then {}
  else
    let c : Option Nat :=
      if 0 ≤ row ∧ row < (st.mCommits.length : Int) then st.mCommits.getD row.toNat none
      else none
    match c with
    | some h => heapGet st.heap h
    | none => {}

/-- RevisionsCache::getCommitPos, from src/cache/RevisionsCache.cpp lines
109-121: -1 when locked, else QVector::indexOf of the looked-up pointer
(pointer identity; an absent identifier looks for the first null slot). -/
def getCommitPos (st : RevisionsCache) (sha : String) : Int :=
  if st.mCacheLocked then -1
  else
    let target : Option Nat := alLookup st.mCommitsMap sha
    match st.mCommits.findIdx? (fun x => x = target) with
    | some i => (i : Int)
    | none => -1

/-- The find_if scan of RevisionsCache::searchCommit: `none` marks the C++
dereference of a null slot (undefined behaviour); `some none` a completed
scan with no match; `some (some h)` the first matching handle. -/
def searchGo (st : RevisionsCache) (field : CommitField) (text : String) :
    List (Option Nat) → Option (Option Nat)
  | [] => some none
  | none :: _ => none
  | some h :: rest =>
    if containsSub (getFieldStr (heapGet st.heap h) field) text then some (some h)
    else searchGo st field text rest

/-- RevisionsCache::searchCommit, from src/cache/RevisionsCache.cpp lines
600-605: find_if from constBegin() + startingPoint. -/
def searchCommit (st : RevisionsCache) (field : CommitField) (text : String)
    (startingPoint : Nat) : Option (Option Nat) :=
  searchGo st field text (st.mCommits.drop startingPoint)

/-- RevisionsCache::getCommitInfoByField, from src/cache/RevisionsCache.cpp
lines 123-137: default when locked; linear search from startingPoint,
retried from row 0 when nothing was found and startingPoint > 0.  The outer
`none` marks a run whose scan dereferenced a null slot. -/
def getCommitInfoByField (st : RevisionsCache) (field : CommitField) (text : String)
    (startingPoint : Nat) : Option CommitInfo :=
  if st.mCacheLocked then some {}
  else
    match searchCommit st field text startingPoint with
    | none => none
    | some (some h) => some (heapGet st.heap h)
    | some none =>
      if startingPoint > 0 then
        match searchCommit st field text 0 with
        | none => none
        | some (some h) => some (heapGet st.heap h)
        | some none => some {}
      else some {}

/-- RevisionsCache::getCommitInfo, from src/cache/RevisionsCache.cpp lines
139-169: default when locked or the identifier is empty; exact lookup first,
then a linear prefix-match scan over the known identifiers in iteration
order. -/
def getCommitInfo (st : RevisionsCache) (sha : String) : CommitInfo :=
  if st.mCacheLocked then {}
  else if ¬ sha = "" then
    match alLookup st.mCommitsMap sha with
    | some h => heapGet st.heap h
    | none =>
      match (alKeys st.mCommitsMap).find? (fun shaToCompare => strStartsWith shaToCompare sha) with
      | some k =>
        match alLookup st.mCommitsMap k with
        | some h => heapGet st.heap h
        | none => {}
      | none => {}
  else {}

/-- RevisionsCache::getRevisionFile, from src/cache/RevisionsCache.cpp lines
171-180: default when locked, else QHash::value of the directional pair. -/
def getRevisionFile (st : RevisionsCache) (sha1 sha2 : String) : RevisionFiles :=
  if st.mCacheLocked then {}
  else (alLookup st.mRevisionFilesMap (sha1, sha2)).getD {}

/-- RevisionsCache::containsRevisionFile, from src/cache/RevisionsCache.cpp
lines 331-340. -/
def containsRevisionFile (st : RevisionsCache) (sha1 sha2 : String) : Bool :=
  if st.mCacheLocked then false
  else (alLookup st.mRevisionFilesMap (sha1, sha2)).isSome

/-- Position-index update of RevisionsCache::insertCommitInfo: append when
the hint is beyond the current length, else overwrite in place unless the
slot already holds a structurally equal record. -/
def insertPos (commits : List (Option Nat)) (heap : List CommitInfo) (commitR : CommitInfo)
    (h : Nat) (orderIdx : Nat) : List (Option Nat) :=
  if commits.length ≤ orderIdx then commits ++ [some h]
  else
    match commits.getD orderIdx none with
    | some h0 => if heapGet heap h0 = commitR then commits else commits.set orderIdx (some h)
    | none => commits.set orderIdx (some h)

/-- RevisionsCache::insertCommitInfo, from src/cache/RevisionsCache.cpp lines
182-218: bulk-load-only insert.  Duplicates are ignored; otherwise the lane
snapshot is computed, the record placed by position hint, indexed by
identifier, and a stale index entry under the record's first parent is
dropped. -/
def insertCommitInfo (st : RevisionsCache) (rev : CommitInfo) (orderIdx : Nat) :
    RevisionsCache :=
  if st.mCacheLocked then
    if (alLookup st.mCommitsMap rev.sha).isSome then st
    else
      let res := calculateLanes st.mLanes rev
      let commitR : CommitInfo := { rev with lanes := res.1 }
      let h := st.heap.length
      let heap1 := st.heap ++ [commitR]
      let commits1 := insertPos st.mCommits st.heap commitR h orderIdx
      let map1 := alInsert st.mCommitsMap rev.sha h
      let map2 :=
        if (alLookup map1 (rev.parent 0)).isSome then alRemove map1 (rev.parent 0) else map1
      { st with
        heap := heap1, mCommits := commits1, mCommitsMap := map2, mLanes := res.2 }
  else st

/-- RevisionsCache::insertRevisionFile, from src/cache/RevisionsCache.cpp
lines 220-240: false when locked; inserts under the directional pair only
when both identifiers are non-empty and the stored value differs. -/
def insertRevisionFile (st : RevisionsCache) (sha1 sha2 : String) (file : RevisionFiles) :
    Bool × RevisionsCache :=
  if st.mCacheLocked then (false, st)
  else
    let key := (sha1, sha2)
    if ¬ sha1 = "" ∧ ¬ sha2 = "" ∧ ¬ (alLookup st.mRevisionFilesMap key).getD {} = file then
      (true, { st with mRevisionFilesMap := alInsert st.mRevisionFilesMap key file })
    else (false, st)

/-- RevisionsCache::getLocalBranchDistances, from src/cache/RevisionsCache.cpp
lines 270-279: default when locked, else QMap::value. -/
def getLocalBranchDistances (st : RevisionsCache) (name : String) : LocalBranchDistances :=
  if st.mCacheLocked then {}
  else (alLookup st.mLocalBranchDistances name).getD {}

/-- RevisionsCache::pendingLocalChanges, from src/cache/RevisionsCache.cpp
lines 469-489: false when locked or the pseudo-commit is absent, else
whether the working-directory File-Change Record's file count equals the
untracked-file count. -/
def pendingLocalChanges (st : RevisionsCache) : Bool :=
  if ¬ st.mCacheLocked then
    match alLookup st.mCommitsMap CommitInfo.ZERO_SHA with
    | some h =>
      let commit := heapGet st.heap h
      let rf := getRevisionFile st CommitInfo.ZERO_SHA (commit.parent 0)
      rf.count == st.mUntrackedfiles.length
    | none => false
  else false

/-- RevisionsCache::getBranches, from src/cache/RevisionsCache.cpp lines
491-506: empty when locked, else one (sha, names) pair per commit on the
reference side-list. -/
def getBranches (st : RevisionsCache) (type : RefType) : List (String × List String) :=
  if ¬ st.mCacheLocked then
    st.mReferences.map
      (fun h => ((heapGet st.heap h).sha, (heapGet st.heap h).references.getReferences type))
  else []

/-- RevisionsCache::getTags, from src/cache/RevisionsCache.cpp lines
508-523. -/
def getTags (st : RevisionsCache) : List (String × List String) :=
  if ¬ st.mCacheLocked then
    st.mReferences.map
      (fun h =>
        ((heapGet st.heap h).sha, (heapGet st.heap h).references.getReferences RefType.Tag))
  else []

/-- RevisionsCache::getCommitForBranch, from src/cache/RevisionsCache.cpp
lines 525-549: empty when locked, else the sha of the first side-list commit
carrying the branch name; first match wins. -/
def getCommitForBranch (st : RevisionsCache) (branch : String) (local_ : Bool) : String :=
  if ¬ st.mCacheLocked then
    match
      st.mReferences.find?
        (fun h =>
          ((heapGet st.heap h).references.getReferences
              (if local_ then RefType.LocalBranch else RefType.RemoteBranches)).contains branch)
    with
    | some h => (heapGet st.heap h).sha
    | none => ""
  else ""

/-- RevisionsCache::commit, from src/cache/RevisionsCache.cpp lines 48-68.
After `new CommitInfo(std::move(c))` the Qt move constructors leave the
source record's string and list members empty, so the subsequent
`c.sha()`/`c.parent(0)` calls read moved-from (default) values: the second
index entry is keyed by the empty string and the parent lookup resolves that
freshly inserted empty key.  `none` marks the C++ null-pointer dereference
that would occur were the parent lookup to miss. -/
def cacheCommit (st : RevisionsCache) (c : CommitInfo) (localBranch : String) :
    Option RevisionsCache :=
  let res := calculateLanes st.mLanes c
  let commitR : CommitInfo := { c with lanes := res.1 }
  let cMoved : CommitInfo := {}
  let h := st.heap.length
  let heap1 := st.heap ++ [commitR]
  let commits1 := st.mCommits.insertIdx 1 (some h)
  let map1 := alInsert st.mCommitsMap commitR.sha h
  let map2 := alInsert map1 cMoved.sha h
  match alLookup map2 (cMoved.parent 0) with
  | none => none
  | some ph =>
    let parentRec := heapGet heap1 ph
    let branches := parentRec.references.getReferences RefType.LocalBranch
    let heap2 :=
      if branches.contains localBranch then
        heap1.set ph
          { parentRec with
            references := parentRec.references.removeReference RefType.LocalBranch localBranch }
      else heap1
    let newRec := heapGet heap2 h
    let heap3 :=
      heap2.set h
        { newRec with
          references := newRec.references.addReference RefType.LocalBranch localBranch }
    some { st with heap := heap3, mCommits := commits1, mCommitsMap := map2, mLanes := res.2 }

theorem alLookup_alInsert_self {α β : Type} [DecidableEq α] (m : List (α × β)) (k : α) (v : β) :
    alLookup (alInsert m k v) k = some v := by
  induction m with
  | nil => simp [alInsert, alLookup]
  | cons x rest ih =>
    by_cases h : x.1 = k
    · simp [alInsert, alLookup, h]
    · simp [alInsert, alLookup, h, ih]

theorem alLookup_alInsert_ne {α β : Type} [DecidableEq α] (m : List (α × β)) (k k2 : α) (v : β)
    (h : ¬ k2 = k) : alLookup (alInsert m k v) k2 = alLookup m k2 := by
  have h' : ¬ k = k2 := fun hh => h hh.symm
  induction m with
  | nil => simp [alInsert, alLookup, h']
  | cons x rest ih =>
    by_cases hx : x.1 = k
    · have hx2 : ¬ x.1 = k2 := by
        rw [hx]
        exact h'
      simp [alInsert, alLookup, hx, h', hx2]
    · simp [alInsert, alLookup, hx, ih]

theorem alLookup_alRemove_ne {α β : Type} [DecidableEq α] (m : List (α × β)) (k k2 : α)
    (h : ¬ k2 = k) : alLookup (alRemove m k) k2 = alLookup m k2 := by
  have h' : ¬ k = k2 := fun hh => h hh.symm
  induction m with
  | nil => simp [alRemove, alLookup]
  | cons x rest ih =>
    simp only [alRemove, decide_not] at ih ⊢
    by_cases hx : x.1 = k
    · have hx2 : ¬ x.1 = k2 := by
        rw [hx]
        exact h'
      simp [alLookup, hx, hx2, h', ih]
    · by_cases hx2 : x.1 = k2 <;> simp [alLookup, hx, hx2, h, ih]

theorem heapGet_append_len (heap : List CommitInfo) (x : CommitInfo) :
    heapGet (heap ++ [x]) heap.length = x := by
  simp [heapGet]

theorem heapGet_append_of_eq (heap : List CommitInfo) (x : CommitInfo) (h0 : Nat)
    (he : heapGet heap h0 = x) : heapGet (heap ++ [x]) h0 = x := by
  rcases Nat.lt_trichotomy h0 heap.length with hlt | heq | hgt
  · simpa [heapGet, List.getD, List.getElem?_append_left hlt] using he
  · subst heq
    exact heapGet_append_len heap x
  · have h2 : (heap ++ [x]).length ≤ h0 := by
      simp only [List.length_append, List.length_cons, List.length_nil]
      omega
    have h3 : heap.length ≤ h0 := Nat.le_of_lt hgt
    rw [heapGet, List.getD_eq_default _ _ h2]
    rw [heapGet, List.getD_eq_default _ _ h3] at he
    exact he

@[simp] theorem setFork_lanes_length (L : Lanes) (s : String) :
    (L.setFork s).lanes.length = L.lanes.length := by
  simp [Lanes.setFork]

@[simp] theorem setMarkAt_lanes_length (L : Lanes) (i : Nat) (k : LaneKind) :
    (L.setMarkAt i k).lanes.length = L.lanes.length := by
  simp [Lanes.setMarkAt]

@[simp] theorem setMerge_lanes_length (L : Lanes) (ps : List String) :
    (L.setMerge ps).lanes.length = L.lanes.length := by
  simp [Lanes.setMerge]

@[simp] theorem setInitial_lanes_length (L : Lanes) :
    (L.setInitial).lanes.length = L.lanes.length := by
  simp [Lanes.setInitial]

theorem changeActiveLane_lanes_ne_nil (L : Lanes) (sha : String) :
    ¬ (L.changeActiveLane sha).lanes = [] := by
  unfold Lanes.changeActiveLane
  cases hfp : L.firstShaPos sha with
  | some p =>
    intro hnil
    simp only at hnil
    rw [Lanes.firstShaPos, hnil] at hfp
    simp [List.findIdx?] at hfp
  | none => simp

theorem isFork_snd_false_lanes_ne_nil (L : Lanes) (sha : String)
    (h : (L.isFork sha).2 = false) : ¬ L.lanes = [] := by
  intro hnil
  have hfp : L.firstShaPos sha = some L.activeLane := by
    simpa [Lanes.isFork] using h
  rw [Lanes.firstShaPos, hnil] at hfp
  simp [List.findIdx?] at hfp

theorem applyMarks_lanes_length (L : Lanes) (c : CommitInfo) (fk dc : Bool) :
    (applyMarks L c fk dc).lanes.length =
      (if dc then L.changeActiveLane c.sha else L).lanes.length := by
  unfold applyMarks
  split_ifs <;> simp

theorem applyMarks_lanes_ne_nil (L : Lanes) (c : CommitInfo) (fk dc : Bool)
    (h0 : dc = false → ¬ L.lanes = []) : ¬ (applyMarks L c fk dc).lanes = [] := by
  intro hnil
  have hlen := applyMarks_lanes_length L c fk dc
  rw [hnil] at hlen
  cases hdc : dc with
  | false =>
    rw [hdc] at hlen
    have hz : L.lanes.length = 0 := by simpa using hlen.symm
    exact h0 hdc (List.length_eq_zero.mp hz)
  | true =>
    rw [hdc] at hlen
    have hz : (L.changeActiveLane c.sha).lanes.length = 0 := by simpa using hlen.symm
    exact changeActiveLane_lanes_ne_nil L c.sha (List.length_eq_zero.mp hz)

theorem calculateLanes_fst_ne_nil (L : Lanes) (c : CommitInfo) :
    ¬ (calculateLanes L c).1 = [] := by
  intro h
  have hmarks :=
    applyMarks_lanes_ne_nil L c (L.isFork c.sha).1 (L.isFork c.sha).2
      (isFork_snd_false_lanes_ne_nil L c.sha)
  apply hmarks
  have h1 : (applyMarks L c (L.isFork c.sha).1 (L.isFork c.sha).2).getLanes = [] := h
  rw [Lanes.getLanes] at h1
  exact List.map_eq_nil_iff.mp h1

/-- The record a position slot denotes: a handle reads the arena; a null slot
(never dereferenced under the all-slots-filled hypothesis) reads as the
default record. -/
def heapAt (st : RevisionsCache) (o : Option Nat) : CommitInfo :=
  match o with
  | some h => heapGet st.heap h
  | none => {}

/-- The rows of the position index, materialized as records. -/
def rowsOf (st : RevisionsCache) : List CommitInfo :=
  st.mCommits.map (heapAt st)

/-- Written from the spec's words (the refinement reference for the search
claim): the first record at a row at or after `start` whose chosen field
contains the text. -/
def searchSpecFrom (rows : List CommitInfo) (field : CommitField) (text : String)
    (start : Nat) : Option CommitInfo :=
  (rows.drop start).find? (fun r => containsSub (getFieldStr r field) text)

/-- Written from the spec's words: the wrap-around field search — first match
at or after `start`; when none and `start > 0`, the first match from row 0;
else the default record. -/
def getCommitInfoByFieldSpec (st : RevisionsCache) (field : CommitField) (text : String)
    (start : Nat) : CommitInfo :=
  match searchSpecFrom (rowsOf st) field text start with
  | some r => r
  | none => if start > 0 then (searchSpecFrom (rowsOf st) field text 0).getD {} else {}

theorem searchGo_eq_find (st : RevisionsCache) (field : CommitField) (text : String) :
    ∀ (l : List (Option Nat)), (∀ x ∈ l, ¬ x = none) →
      searchGo st field text l =
        some ((l.find? (fun o => containsSub (getFieldStr (heapAt st o) field) text)).join) := by
  intro l
  induction l with
  | nil => intro _; rfl
  | cons a rest ih =>
    intro hall
    cases a with
    | none => exact absurd rfl (hall none (by simp))
    | some h =>
      have hrest : ∀ x ∈ rest, ¬ x = none := fun x hx => hall x (by simp [hx])
      by_cases hc : containsSub (getFieldStr (heapGet st.heap h) field) text
      · simp [searchGo, List.find?_cons, hc, heapAt]
      · simp [searchGo, List.find?_cons, hc, heapAt, ih hrest]

theorem searchSpecFrom_eq_find (st : RevisionsCache) (field : CommitField) (text : String)
    (n : Nat) :
    searchSpecFrom (rowsOf st) field text n =
      Option.map (heapAt st)
        ((st.mCommits.drop n).find?
          (fun o => containsSub (getFieldStr (heapAt st o) field) text)) := by
  unfold searchSpecFrom rowsOf
  rw [← List.map_drop, List.find?_map]
  rfl

/-- Claim C9 (amended): on an unlocked cache whose position-index slots all
hold records and a startingRow within bounds, getCommitInfoByField returns
(without crashing) exactly the record the spec describes: the first match at
or after startingRow, else — when startingRow > 0 — the first match from row
0, else the default record. -/
theorem getCommitInfoByField_matches_spec (st : RevisionsCache) (field : CommitField)
    (text : String) (start : Nat) (hl : st.mCacheLocked = false)
    (hall : ∀ x ∈ st.mCommits, ¬ x = none) (hb : start ≤ st.mCommits.length) :
    getCommitInfoByField st field text start =
      some (getCommitInfoByFieldSpec st field text start) := by
  have hallD : ∀ x ∈ st.mCommits.drop start, ¬ x = none :=
    fun x hx => hall x (List.drop_subset start st.mCommits hx)
  have h1 : searchCommit st field text start =
      some (((st.mCommits.drop start).find?
        (fun o => containsSub (getFieldStr (heapAt st o) field) text)).join) := by
    unfold searchCommit
    exact searchGo_eq_find st field text _ hallD
  have h0 : searchCommit st field text 0 =
      some ((st.mCommits.find?
        (fun o => containsSub (getFieldStr (heapAt st o) field) text)).join) := by
    unfold searchCommit
    rw [List.drop_zero]
    exact searchGo_eq_find st field text _ hall
  cases hfind : (st.mCommits.drop start).find?
      (fun o => containsSub (getFieldStr (heapAt st o) field) text) with
  | some o =>
    obtain ⟨hh, rfl⟩ : ∃ hh, o = some hh := by
      cases o with
      | none => exact absurd rfl (hallD none (List.mem_of_find?_eq_some hfind))
      | some hh => exact ⟨hh, rfl⟩
    have h1a : searchCommit st field text start = some (some hh) := by
      rw [h1, hfind]
      rfl
    have hsa : searchSpecFrom (rowsOf st) field text start = some (heapGet st.heap hh) := by
      rw [searchSpecFrom_eq_find, hfind]
      rfl
    simp [getCommitInfoByField, getCommitInfoByFieldSpec, hl, h1a, hsa]
  | none =>
    have h1a : searchCommit st field text start = some none := by
      rw [h1, hfind]
      rfl
    have hsa : searchSpecFrom (rowsOf st) field text start = none := by
      rw [searchSpecFrom_eq_find, hfind]
      rfl
    by_cases hst : 0 < start
    · cases hfind0 : st.mCommits.find?
          (fun o => containsSub (getFieldStr (heapAt st o) field) text) with
      | some o =>
        obtain ⟨hh, rfl⟩ : ∃ hh, o = some hh := by
          cases o with
          | none => exact absurd rfl (hall none (List.mem_of_find?_eq_some hfind0))
          | some hh => exact ⟨hh, rfl⟩
        have h0a : searchCommit st field text 0 = some (some hh) := by
          rw [h0, hfind0]
          rfl
        have hs0 : searchSpecFrom (rowsOf st) field text 0 = some (heapGet st.heap hh) := by
          rw [searchSpecFrom_eq_find, List.drop_zero, hfind0]
          rfl
        simp [getCommitInfoByField, getCommitInfoByFieldSpec, hl, h1a, hsa, h0a, hs0, hst]
      | none =>
        have h0a : searchCommit st field text 0 = some none := by
          rw [h0, hfind0]
          rfl
        have hs0 : searchSpecFrom (rowsOf st) field text 0 = none := by
          rw [searchSpecFrom_eq_find, List.drop_zero, hfind0]
          rfl
        simp [getCommitInfoByField, getCommitInfoByFieldSpec, hl, h1a, hsa, h0a, hs0, hst]
    · have hst0 : start = 0 := Nat.eq_zero_of_not_pos hst
      subst hst0
      rw [List.drop_zero] at hfind
      have h0a : searchCommit st field text 0 = some none := by
        rw [h0, hfind]
        rfl
      have hs0 : searchSpecFrom (rowsOf st) field text 0 = none := by
        rw [searchSpecFrom_eq_find, List.drop_zero, hfind]
        rfl
      simp [getCommitInfoByField, getCommitInfoByFieldSpec, hl, h0a, hs0]

theorem insertCommitInfo_eq (st : RevisionsCache) (r : CommitInfo) (idx : Nat)
    (hl : st.mCacheLocked = true) (hnew : alLookup st.mCommitsMap r.sha = none) :
    insertCommitInfo st r idx =
      { st with
        heap := st.heap ++ [{ r with lanes := (calculateLanes st.mLanes r).1 }],
        mCommits := insertPos st.mCommits st.heap
          { r with lanes := (calculateLanes st.mLanes r).1 } st.heap.length idx,
        mCommitsMap :=
          (if (alLookup (alInsert st.mCommitsMap r.sha st.heap.length) (r.parent 0)).isSome then
            alRemove (alInsert st.mCommitsMap r.sha st.heap.length) (r.parent 0)
          else alInsert st.mCommitsMap r.sha st.heap.length),
        mLanes := (calculateLanes st.mLanes r).2 } := by
  simp [insertCommitInfo, hl, hnew]

theorem lookup_after_insert_remove (m : List (String × Nat)) (k p : String) (v : Nat)
    (hp : ¬ p = k) :
    alLookup
      (if (alLookup (alInsert m k v) p).isSome then alRemove (alInsert m k v) p
        else alInsert m k v) k = some v := by
  by_cases hc : (alLookup (alInsert m k v) p).isSome
  · rw [if_pos hc, alLookup_alRemove_ne _ _ _ (fun hh => hp hh.symm)]
    exact alLookup_alInsert_self m k v
  · rw [if_neg hc]
    exact alLookup_alInsert_self m k v

theorem insertCommitInfo_getCommitInfo (st : RevisionsCache) (r : CommitInfo) (idx : Nat)
    (hl : st.mCacheLocked = true) (hnew : alLookup st.mCommitsMap r.sha = none)
    (hsha : ¬ r.sha = "") (hpar : ¬ r.parent 0 = r.sha) :
    getCommitInfo (endCacheConfig (insertCommitInfo st r idx)) r.sha =
      { r with lanes := (calculateLanes st.mLanes r).1 } := by
  rw [insertCommitInfo_eq st r idx hl hnew]
  have hmap := lookup_after_insert_remove st.mCommitsMap r.sha (r.parent 0) st.heap.length hpar
  simp [getCommitInfo, endCacheConfig, hsha, hmap, heapGet_append_len]

theorem insertCommitInfo_getByRow (st : RevisionsCache) (r : CommitInfo) (idx : Nat)
    (hl : st.mCacheLocked = true) (hnew : alLookup st.mCommitsMap r.sha = none) :
    getCommitInfoByRow (endCacheConfig (insertCommitInfo st r idx))
        (((if st.mCommits.length ≤ idx then st.mCommits.length else idx : Nat) : Int)) =
      { r with lanes := (calculateLanes st.mLanes r).1 } := by
  rw [insertCommitInfo_eq st r idx hl hnew]
  by_cases hc : st.mCommits.length ≤ idx
  · simp only [if_pos hc, insertPos]
    simp [getCommitInfoByRow, endCacheConfig, List.getD_eq_getElem?_getD,
      List.getElem?_concat_length, heapGet_append_len]
  · have hlt : idx < st.mCommits.length := Nat.lt_of_not_le hc
    simp only [if_neg hc, insertPos]
    cases hslot : st.mCommits.getD idx none with
    | none =>
      simp [getCommitInfoByRow, endCacheConfig, hslot, hlt, List.getD_eq_getElem?_getD,
        List.getElem?_set_self (by simpa using hlt), heapGet_append_len]
    | some h0 =>
      by_cases heq : heapGet st.heap h0 = { r with lanes := (calculateLanes st.mLanes r).1 }
      · have hslot2 : st.mCommits[idx] = some h0 := by
          rw [List.getD_eq_getElem?_getD, List.getElem?_eq_getElem hlt] at hslot
          simpa using hslot
        simp only [hslot, if_pos heq]
        simp [getCommitInfoByRow, endCacheConfig, hlt, List.getD_eq_getElem?_getD, hslot2,
          heapGet_append_of_eq st.heap _ h0 heq]
      · simp only [hslot, if_neg heq]
        simp [getCommitInfoByRow, endCacheConfig, hlt, List.getD_eq_getElem?_getD,
          List.getElem?_set_self (by simpa using hlt), heapGet_append_len]

/-- Claim C1: the spec says a rename line "R<NN>\t<orig>\t<dest>" produces both a
NEW destination entry and a DELETED origin entry.  The code strips the leading
letter from the type field first and then tests `type.at(0) == 'R'` against the
first digit of the similarity, so the DELETED origin entry is never produced
(contradicting the code's own comment "simulate deleted orig file only in case
of rename"): the rename line below yields a single NEW entry, exactly like the
copy line. -/
theorem claim1_rename_line_drops_deleted_entry :
    parseExtStatusLine "R90\told/path.txt\tnew/path.txt" =
        { mFiles := ["new/path.txt"], fileStatus := [RevisionFiles.NEW],
          extStatus := ["old/path.txt --> new/path.txt (90%)"], mergeParent := [1],
          onlyModified := false } ∧
      parseExtStatusLine "C80\ta.txt\tb.txt" =
        { mFiles := ["b.txt"], fileStatus := [RevisionFiles.NEW],
          extStatus := ["a.txt --> b.txt (80%)"], mergeParent := [1],
          onlyModified := false } := by
  decide

/-- Claim C2: every read operation called on a cache whose bulk-load lock flag
is set returns its documented default/empty value.  The read operations are
embedded as pure functions of the cache state, matching the C++ code, which
performs no writes on these paths. -/
theorem claim2_locked_reads_return_defaults (st : RevisionsCache)
    (hl : st.mCacheLocked = true) (row : Int) (sha sha2 name branch text : String)
    (field : CommitField) (startingPoint : Nat) (type : RefType) (local_ : Bool) :
    getCommitInfoByRow st row = ({} : CommitInfo) ∧
    getCommitInfo st sha = ({} : CommitInfo) ∧
    getCommitInfoByField st field text startingPoint = some ({} : CommitInfo) ∧
    getCommitPos st sha = -1 ∧
    getRevisionFile st sha sha2 = ({} : RevisionFiles) ∧
    containsRevisionFile st sha sha2 = false ∧
    getLocalBranchDistances st name = ({} : LocalBranchDistances) ∧
    pendingLocalChanges st = false ∧
    getBranches st type = [] ∧
    getTags st = [] ∧
    getCommitForBranch st branch local_ = "" := by
  refine ⟨?_, ?_, ?_, ?_, ?_, ?_, ?_, ?_, ?_, ?_, ?_⟩ <;>
    simp [getCommitInfoByRow, getCommitInfo, getCommitInfoByField, getCommitPos,
      getRevisionFile, containsRevisionFile, getLocalBranchDistances, pendingLocalChanges,
      getBranches, getTags, getCommitForBranch, hl]

/-- Witness for claim C2 at a concrete locked cache. -/
theorem claim2_witness :
    getCommitInfoByRow ({ mCacheLocked := true } : RevisionsCache) 0 = ({} : CommitInfo) ∧
    getCommitInfo ({ mCacheLocked := true } : RevisionsCache) "a" = ({} : CommitInfo) ∧
    getCommitInfoByField ({ mCacheLocked := true } : RevisionsCache) CommitField.SHA "e" 0 =
      some ({} : CommitInfo) ∧
    getCommitPos ({ mCacheLocked := true } : RevisionsCache) "a" = -1 ∧
    getRevisionFile ({ mCacheLocked := true } : RevisionsCache) "a" "b" =
      ({} : RevisionFiles) ∧
    containsRevisionFile ({ mCacheLocked := true } : RevisionsCache) "a" "b" = false ∧
    getLocalBranchDistances ({ mCacheLocked := true } : RevisionsCache) "c" =
      ({} : LocalBranchDistances) ∧
    pendingLocalChanges ({ mCacheLocked := true } : RevisionsCache) = false ∧
    getBranches ({ mCacheLocked := true } : RevisionsCache) RefType.Tag = [] ∧
    getTags ({ mCacheLocked := true } : RevisionsCache) = [] ∧
    getCommitForBranch ({ mCacheLocked := true } : RevisionsCache) "d" true = "" :=
  claim2_locked_reads_return_defaults { mCacheLocked := true } rfl 0 "a" "b" "c" "d" "e"
    CommitField.SHA 0 RefType.Tag true

/-- Claim C4: inserting a Commit Record whose identifier is already present in
the identifier index, while the cache is in bulk-load mode, leaves the whole
cache state unchanged — so a second insert of the same identifier leaves
exactly the state the first insert produced. -/
theorem claim4_duplicate_insert_idempotent (st : RevisionsCache) (r : CommitInfo) (idx : Nat)
    (hl : st.mCacheLocked = true) (hdup : (alLookup st.mCommitsMap r.sha).isSome = true) :
    insertCommitInfo st r idx = st := by
  simp [insertCommitInfo, hl, hdup]

/-- Concrete cache for the claim C4 witness: locked, with one commit "a"
already indexed. -/
def dupRecord : CommitInfo := { sha := "a" }

def dupCache : RevisionsCache :=
  { mCacheLocked := true, heap := [dupRecord], mCommits := [some 0],
    mCommitsMap := [("a", 0)] }

/-- Witness for claim C4 at a concrete duplicate insert. -/
theorem claim4_witness : insertCommitInfo dupCache dupRecord 5 = dupCache :=
  claim4_duplicate_insert_idempotent dupCache dupRecord 5 rfl (by decide)

/-- Claim C5: on an unlocked cache and a non-empty identifier, getCommitInfo
returns the exactly-keyed record when present; otherwise the record of the
first indexed identifier (in iteration order) having the argument as a
prefix; otherwise the default record. -/
theorem claim5_getCommitInfo_lookup (st : RevisionsCache) (s : String)
    (hl : st.mCacheLocked = false) (hs : ¬ s = "") :
    (∀ h, alLookup st.mCommitsMap s = some h → getCommitInfo st s = heapGet st.heap h) ∧
    (alLookup st.mCommitsMap s = none →
      (∀ k h, (alKeys st.mCommitsMap).find? (fun key => strStartsWith key s) = some k →
          alLookup st.mCommitsMap k = some h → getCommitInfo st s = heapGet st.heap h) ∧
      ((alKeys st.mCommitsMap).find? (fun key => strStartsWith key s) = none →
        getCommitInfo st s = ({} : CommitInfo))) := by
  refine ⟨fun h hh => ?_, fun hnone => ⟨fun k h hk hkh => ?_, fun hnone2 => ?_⟩⟩ <;>
    simp [getCommitInfo, hl, hs, *]

/-- Concrete cache for the claim C5 witness: one record under "abc123". -/
def prefixRecord : CommitInfo := { sha := "abc123", author := "zz" }

def prefixCache : RevisionsCache := { heap := [prefixRecord], mCommitsMap := [("abc123", 0)] }

/-- Witness for claim C5: the abbreviated identifier "abc" resolves to the
record stored under "abc123" through the prefix-match fallback. -/
theorem claim5_witness : getCommitInfo prefixCache "abc" = prefixRecord := by
  have h := claim5_getCommitInfo_lookup prefixCache "abc" rfl (by decide)
  exact (h.2 (by decide)).1 "abc123" 0 (by decide) (by decide)

/-- Claim C3 (amended): a record inserted during a bulk load under a fresh,
non-empty identifier that differs from its own first parent is retrievable
after endBulkLoad both by exact identifier and at the row where it was
placed, with every field preserved except the lane sequence, which is
non-empty. -/
theorem claim3_insert_roundTrip (st : RevisionsCache) (r : CommitInfo) (idx : Nat)
    (hl : st.mCacheLocked = true) (hnew : alLookup st.mCommitsMap r.sha = none)
    (hsha : ¬ r.sha = "") (hpar : ¬ r.parent 0 = r.sha) :
    getCommitInfo (endCacheConfig (insertCommitInfo st r idx)) r.sha =
        { r with lanes := (calculateLanes st.mLanes r).1 } ∧
      ¬ (calculateLanes st.mLanes r).1 = [] ∧
      getCommitInfoByRow (endCacheConfig (insertCommitInfo st r idx))
          (((if st.mCommits.length ≤ idx then st.mCommits.length else idx : Nat) : Int)) =
        { r with lanes := (calculateLanes st.mLanes r).1 } :=
  ⟨insertCommitInfo_getCommitInfo st r idx hl hnew hsha hpar,
   calculateLanes_fst_ne_nil st.mLanes r,
   insertCommitInfo_getByRow st r idx hl hnew⟩

/-- A record whose identifier equals its own first parent, for the claim C3
counterexample. -/
def selfParentRecord : CommitInfo := { sha := "a", parents := ["a"], author := "x" }

/-- Claim C3 counterexample: as stated over every Commit Record the claim
fails.  Inserting a record whose first parent equals its own identifier makes
the stale-placeholder cleanup (`mCommitsMap.remove(rev.parent(0))`) drop the
record's own just-created identifier-index entry, so the exact-identifier
retrieval returns the default record whose author differs from the inserted
one. -/
theorem claim3_counterexample :
    getCommitInfo (endCacheConfig (insertCommitInfo (beginCacheConfig {} 1) selfParentRecord 1))
        "a" = ({} : CommitInfo) ∧
      ¬ selfParentRecord.author = "" := by
  decide

/-- A well-behaved record for the claim C3 witness. -/
def freshRecord : CommitInfo :=
  { sha := "a", parents := ["b"], author := "au", dateSinceEpoch := 5, shortLog := "s",
    longLog := "l" }

/-- Witness for claim C3 at a concrete bulk load of one record. -/
theorem claim3_witness :
    getCommitInfo (endCacheConfig (insertCommitInfo (beginCacheConfig {} 1) freshRecord 1))
        freshRecord.sha =
        { freshRecord with lanes := (calculateLanes (beginCacheConfig {} 1).mLanes freshRecord).1 } ∧
      ¬ (calculateLanes (beginCacheConfig {} 1).mLanes freshRecord).1 = [] ∧
      getCommitInfoByRow (endCacheConfig (insertCommitInfo (beginCacheConfig {} 1) freshRecord 1))
          (((if (beginCacheConfig ({} : RevisionsCache) 1).mCommits.length ≤ 1 then
              (beginCacheConfig ({} : RevisionsCache) 1).mCommits.length else 1 : Nat) : Int)) =
        { freshRecord with lanes := (calculateLanes (beginCacheConfig {} 1).mLanes freshRecord).1 } :=
  claim3_insert_roundTrip (beginCacheConfig {} 1) freshRecord 1 rfl (by decide) (by decide)
    (by decide)

/-- Claim C6: on an unlocked cache where the working-directory pseudo-commit
is indexed and its File-Change Record is stored under (zero identifier, its
first parent), pendingLocalChanges is true exactly when that record's file
count equals the untracked-file count. -/
theorem claim6_pendingLocalChanges_iff (st : RevisionsCache) (h : Nat) (rf : RevisionFiles)
    (hl : st.mCacheLocked = false)
    (hz : alLookup st.mCommitsMap CommitInfo.ZERO_SHA = some h)
    (hrf : alLookup st.mRevisionFilesMap
        (CommitInfo.ZERO_SHA, (heapGet st.heap h).parent 0) = some rf) :
    (pendingLocalChanges st = true ↔ rf.count = st.mUntrackedfiles.length) := by
  simp [pendingLocalChanges, hl, hz, getRevisionFile, hrf, RevisionFiles.count]

/-- Concrete working-directory state for the claim C6 witness. -/
def wipRecord : CommitInfo := { sha := CommitInfo.ZERO_SHA, parents := ["p1"] }

def wipFiles : RevisionFiles := { mFiles := ["u1"] }

def wipCache : RevisionsCache :=
  { heap := [wipRecord], mCommitsMap := [(CommitInfo.ZERO_SHA, 0)],
    mRevisionFilesMap := [((CommitInfo.ZERO_SHA, "p1"), wipFiles)], mUntrackedfiles := ["u1"] }

/-- Witness for claim C6: one synthesized file matching one untracked file. -/
theorem claim6_witness : pendingLocalChanges wipCache = true := by
  have h := claim6_pendingLocalChanges_iff wipCache 0 wipFiles rfl (by decide) (by decide)
  exact h.mpr (by decide)

/-- Claim C8: the file-change cache is directional — inserting under (a, b)
leaves the reads under (b, a) unchanged when a and b differ. -/
theorem claim8_revisionFile_directional (st : RevisionsCache) (a b : String)
    (f : RevisionFiles) (hl : st.mCacheLocked = false) (hab : ¬ a = b) :
    getRevisionFile (insertRevisionFile st a b f).2 b a = getRevisionFile st b a ∧
    containsRevisionFile (insertRevisionFile st a b f).2 b a = containsRevisionFile st b a := by
  have hk : ¬ ((b, a) : String × String) = (a, b) := by
    intro hh
    rw [Prod.mk.injEq] at hh
    exact hab hh.2
  simp only [insertRevisionFile, hl, Bool.false_eq_true, if_false]
  split_ifs with hcond
  · constructor <;>
      simp [getRevisionFile, containsRevisionFile, hl, alLookup_alInsert_ne _ _ _ _ hk]
  · exact ⟨rfl, rfl⟩

/-- Concrete file-change record for the claim C8 witness. -/
def dirFiles : RevisionFiles := { mFiles := ["f"] }

/-- Witness for claim C8 at the concrete pair ("x", "y"). -/
theorem claim8_witness :
    getRevisionFile (insertRevisionFile {} "x" "y" dirFiles).2 "y" "x" =
        getRevisionFile {} "y" "x" ∧
      containsRevisionFile (insertRevisionFile {} "x" "y" dirFiles).2 "y" "x" =
        containsRevisionFile {} "y" "x" :=
  claim8_revisionFile_directional {} "x" "y" dirFiles rfl (by decide)

/-- Claim C10: beginBulkLoad on a cold (empty, unlocked) cache resizes the
position index to expectedCount + 1 all-null slots; on a locked or non-empty
cache the position index length is unchanged. -/
theorem claim10_beginCacheConfig (st : RevisionsCache) (n : Nat) :
    (st.mCommits = [] → st.mCacheLocked = false →
      cacheCount (beginCacheConfig st n) = n + 1 ∧
        ∀ x ∈ (beginCacheConfig st n).mCommits, x = none) ∧
    ((st.mCacheLocked = true ∨ ¬ st.mCommits = []) →
      cacheCount (beginCacheConfig st n) = cacheCount st) := by
  constructor
  · intro hc hl
    constructor
    · simp [beginCacheConfig, cacheCount, hl, hc]
    · intro x hx
      have hx2 : x ∈ List.replicate (n + 1) (none : Option Nat) := by
        simpa [beginCacheConfig, hl, hc] using hx
      exact (List.mem_replicate.mp hx2).2
  · intro hor
    rcases hor with hlock | hne
    · simp [beginCacheConfig, hlock, cacheCount]
    · by_cases hl2 : st.mCacheLocked
      · simp [beginCacheConfig, hl2, cacheCount]
      · have hemp : ¬ st.mCommits.isEmpty = true := by
          simpa [List.isEmpty_iff] using hne
        simp [beginCacheConfig, hl2, cacheCount, hemp]

/-- Witness for claim C10: a cold cache sized for two commits, and a locked
cache left untouched. -/
theorem claim10_witness :
    (cacheCount (beginCacheConfig {} 2) = 2 + 1 ∧
        ∀ x ∈ (beginCacheConfig ({} : RevisionsCache) 2).mCommits, x = none) ∧
      cacheCount (beginCacheConfig ({ mCacheLocked := true } : RevisionsCache) 2) =
        cacheCount ({ mCacheLocked := true } : RevisionsCache) :=
  ⟨(claim10_beginCacheConfig {} 2).1 rfl rfl,
   (claim10_beginCacheConfig { mCacheLocked := true } 2).2 (Or.inl rfl)⟩

/-- Concrete states for the claim C7 evaluation: parent "p1" carries local
branch "master"; a new commit "c2" with first parent "p1" is appended. -/
def branchParent : CommitInfo :=
  { sha := "p1", references := ⟨[(RefType.LocalBranch, "master")]⟩ }

def branchCache : RevisionsCache :=
  { heap := [branchParent], mCommits := [some 0], mCommitsMap := [("p1", 0)] }

def newTip : CommitInfo := { sha := "c2", parents := ["p1"] }

/-- Claim C7: the spec says appendCommit migrates the named local branch off
the first parent onto the new commit.  The code reads `c.sha()` and
`c.parent(0)` after `std::move(c)`, so the parent lookup uses the moved-from
empty identifier and resolves the just-inserted empty-keyed entry — the new
commit itself — leaving the real parent's branch reference untouched.  At the
concrete input: the call succeeds, the new commit does get the branch and sits
at position 1, but the parent (heap handle 0) still carries "master". -/
theorem claim7_commit_branch_not_migrated :
    (cacheCommit branchCache newTip "master").isSome = true ∧
    (((cacheCommit branchCache newTip "master").getD {}).heap.getD 0
          {}).references.getReferences RefType.LocalBranch = ["master"] ∧
    (((cacheCommit branchCache newTip "master").getD {}).heap.getD 1
          {}).references.getReferences RefType.LocalBranch = ["master"] ∧
    ((cacheCommit branchCache newTip "master").getD {}).mCommits.getD 1 none = some 1 := by
  decide

/-- A reachable unlocked cache holding one null position slot, for the claim
C9 counterexample (it arises from beginBulkLoad(0) followed by endBulkLoad on
a cold cache). -/
def nullSlotCache : RevisionsCache := { mCommits := [none] }

/-- Claim C9 counterexample: as stated over every unlocked cache state the
claim fails.  With a null slot in the position index the find_if scan
dereferences a null pointer (undefined behaviour, embedded as `none`) instead
of returning the default record the claim promises. -/
theorem claim9_counterexample :
    getCommitInfoByField nullSlotCache CommitField.SHA "a" 0 = none ∧
      ¬ getCommitInfoByField nullSlotCache CommitField.SHA "a" 0 =
          some ({} : CommitInfo) := by
  decide

/-- Concrete one-record cache for the claim C9 witness. -/
def searchRecord : CommitInfo := { sha := "deadbeef", author := "bob" }

def searchCache : RevisionsCache := { heap := [searchRecord], mCommits := [some 0] }

/-- Witness for claim C9: a concrete field search agreeing with the spec-side
search description. -/
theorem claim9_witness :
    getCommitInfoByField searchCache CommitField.AUTHOR "bo" 0 =
      some (getCommitInfoByFieldSpec searchCache CommitField.AUTHOR "bo" 0) :=
  getCommitInfoByField_matches_spec searchCache CommitField.AUTHOR "bo" 0 rfl (by decide)
    (by decide)
